import Mathlib

/-!
Shallow embedding of the nine-patch scaler (`src/lib.rs`) and proofs about it.

Pixels are RGBA quads of naturals; images are a width, a height and a total
pixel function (row-major buffer abstracted as a function).  The Rust image
crate's `ImageBuffer::new` zero-initializes every channel, and `put_pixel`
overwrites a single pixel.  All pixel-filling loops in the source are
`for dy { for dx { ... put_pixel ... } }` double loops writing each target
pixel at most once; they are embedded through the `gridLoop` combinator and
characterized pointwise by `gridLoop_pix`.

Image decoding and PNG encoding are external collaborators of this system;
they are abstracted as an `Option Image` argument (decoded image, `none` on
decode failure) and an `enc : Image → Option (List Nat)` argument.
-/

structure Rgba where
  r : Nat
  g : Nat
  b : Nat
  a : Nat
deriving DecidableEq, Repr

/-- The marker color: opaque black `Rgba([0,0,0,255])`. -/
def black : Rgba := ⟨0, 0, 0, 255⟩

structure Image where
  width : Nat
  height : Nat
  pix : Nat → Nat → Rgba

/-- Rust's `img.get_pixel(x, y)`. -/
def get_pixel (img : Image) (x y : Nat) : Rgba := img.pix x y

/-- Rust's `img.put_pixel(x, y, p)`: overwrite one pixel, dimensions unchanged. -/
def put_pixel (img : Image) (x y : Nat) (p : Rgba) : Image :=
  { img with pix := fun x' y' => if x' = x ∧ y' = y then p else img.pix x' y' }

/-- Rust's `ImageBuffer::new(w, h)`: a `w × h` buffer with every channel zero. -/
def ImageBuffer.new (w h : Nat) : Image :=
  ⟨w, h, fun _ _ => ⟨0, 0, 0, 0⟩⟩

/-- The shape shared by every pixel-filling double loop of the source:
for `j` in `0..h`, for `i` in `0..w`, if the guard holds write value `v i j`
at `(a + i, b + j)`.  (In the source the guards read the current buffer's
dimensions; `put_pixel` never changes dimensions, so reading the initial
ones is the same.) -/
def gridLoop (a b w h : Nat) (g : Nat → Nat → Bool) (v : Nat → Nat → Rgba)
    (dst : Image) : Image :=
  (List.range h).foldl (fun acc j =>
    (List.range w).foldl (fun acc2 i =>
      if g i j then put_pixel acc2 (a + i) (b + j) (v i j) else acc2) acc) dst

theorem put_pixel_width (img : Image) (x y : Nat) (p : Rgba) :
    (put_pixel img x y p).width = img.width := rfl

theorem put_pixel_height (img : Image) (x y : Nat) (p : Rgba) :
    (put_pixel img x y p).height = img.height := rfl

theorem put_pixel_pix (img : Image) (x y : Nat) (p : Rgba) (x' y' : Nat) :
    (put_pixel img x y p).pix x' y' =
      if x' = x ∧ y' = y then p else img.pix x' y' := rfl

/-- One row of `gridLoop`. -/
def gridRow (a b : Nat) (g : Nat → Nat → Bool) (v : Nat → Nat → Rgba)
    (j : Nat) (w : Nat) (img : Image) : Image :=
  (List.range w).foldl (fun acc2 i =>
    if g i j then put_pixel acc2 (a + i) (b + j) (v i j) else acc2) img

theorem gridRow_width (a b : Nat) (g : Nat → Nat → Bool) (v : Nat → Nat → Rgba)
    (j w : Nat) (img : Image) : (gridRow a b g v j w img).width = img.width := by
  induction w generalizing img with
  | zero => rfl
  | succ n ih =>
    rw [gridRow, List.range_succ, List.foldl_append]
    simp only [List.foldl_cons, List.foldl_nil]
    rw [show (List.range n).foldl (fun acc2 i =>
      if g i j then put_pixel acc2 (a + i) (b + j) (v i j) else acc2) img =
      gridRow a b g v j n img from rfl]
    split <;> simp [put_pixel_width, ih]

theorem gridRow_height (a b : Nat) (g : Nat → Nat → Bool) (v : Nat → Nat → Rgba)
    (j w : Nat) (img : Image) : (gridRow a b g v j w img).height = img.height := by
  induction w generalizing img with
  | zero => rfl
  | succ n ih =>
    rw [gridRow, List.range_succ, List.foldl_append]
    simp only [List.foldl_cons, List.foldl_nil]
    rw [show (List.range n).foldl (fun acc2 i =>
      if g i j then put_pixel acc2 (a + i) (b + j) (v i j) else acc2) img =
      gridRow a b g v j n img from rfl]
    split <;> simp [put_pixel_height, ih]

theorem gridRow_pix (a b : Nat) (g : Nat → Nat → Bool) (v : Nat → Nat → Rgba)
    (j w : Nat) (img : Image) (x y : Nat) :
    (gridRow a b g v j w img).pix x y =
      if a ≤ x ∧ x < a + w ∧ y = b + j ∧ g (x - a) j = true then v (x - a) j
      else img.pix x y := by
  induction w generalizing img with
  | zero =>
    simp only [gridRow, List.range_zero, List.foldl_nil]
    rw [if_neg (by intro hc; exact absurd hc.2.1 (by omega))]
  | succ n ih =>
    rw [gridRow, List.range_succ, List.foldl_append]
    simp only [List.foldl_cons, List.foldl_nil]
    rw [show (List.range n).foldl (fun acc2 i =>
      if g i j then put_pixel acc2 (a + i) (b + j) (v i j) else acc2) img =
      gridRow a b g v j n img from rfl]
    by_cases hlast : x = a + n ∧ y = b + j
    · have hxa : x - a = n := by omega
      by_cases hg : g n j = true
      · rw [if_pos hg, put_pixel_pix, if_pos ⟨hlast.1, hlast.2⟩]
        rw [if_pos]
        · rw [hxa]
        · exact ⟨by omega, by omega, hlast.2, by rw [hxa]; exact hg⟩
      · rw [if_neg hg, ih]
        rw [if_neg (by intro hc; exact absurd hc.2.1 (by omega)),
          if_neg (by intro hc; rw [hxa] at hc; exact hg hc.2.2.2)]
    · have hstep : ∀ z : Image, (if g n j = true
          then put_pixel z (a + n) (b + j) (v n j) else z).pix x y = z.pix x y := by
        intro z
        split
        · rw [put_pixel_pix, if_neg (by omega)]
        · rfl
      rw [hstep, ih]
      by_cases hin : a ≤ x ∧ x < a + n ∧ y = b + j ∧ g (x - a) j = true
      · rw [if_pos hin, if_pos ⟨hin.1, by omega, hin.2.2⟩]
      · rw [if_neg hin, if_neg (by
          intro ⟨h1, h2, h3, h4⟩
          exact hin ⟨h1, by omega, h3, h4⟩)]

theorem gridLoop_width (a b w h : Nat) (g : Nat → Nat → Bool)
    (v : Nat → Nat → Rgba) (dst : Image) :
    (gridLoop a b w h g v dst).width = dst.width := by
  induction h generalizing dst with
  | zero => rfl
  | succ n ih =>
    rw [gridLoop, List.range_succ, List.foldl_append]
    simp only [List.foldl_cons, List.foldl_nil]
    rw [show ((List.range n).foldl _ dst : Image) = gridLoop a b w n g v dst from rfl,
      show ((List.range w).foldl _ (gridLoop a b w n g v dst) : Image) =
        gridRow a b g v n w (gridLoop a b w n g v dst) from rfl]
    rw [gridRow_width, ih]

theorem gridLoop_height (a b w h : Nat) (g : Nat → Nat → Bool)
    (v : Nat → Nat → Rgba) (dst : Image) :
    (gridLoop a b w h g v dst).height = dst.height := by
  induction h generalizing dst with
  | zero => rfl
  | succ n ih =>
    rw [gridLoop, List.range_succ, List.foldl_append]
    simp only [List.foldl_cons, List.foldl_nil]
    rw [show ((List.range n).foldl _ dst : Image) = gridLoop a b w n g v dst from rfl,
      show ((List.range w).foldl _ (gridLoop a b w n g v dst) : Image) =
        gridRow a b g v n w (gridLoop a b w n g v dst) from rfl]
    rw [gridRow_height, ih]

theorem gridLoop_pix (a b w h : Nat) (g : Nat → Nat → Bool)
    (v : Nat → Nat → Rgba) (dst : Image) (x y : Nat) :
    (gridLoop a b w h g v dst).pix x y =
      if a ≤ x ∧ x < a + w ∧ b ≤ y ∧ y < b + h ∧ g (x - a) (y - b) = true
      then v (x - a) (y - b)
      else dst.pix x y := by
  induction h generalizing dst with
  | zero =>
    simp only [gridLoop, List.range_zero, List.foldl_nil]
    rw [if_neg (by intro hc; exact absurd hc.2.2.2.1 (by omega))]
  | succ n ih =>
    rw [gridLoop, List.range_succ, List.foldl_append]
    simp only [List.foldl_cons, List.foldl_nil]
    rw [show ((List.range n).foldl _ dst : Image) = gridLoop a b w n g v dst from rfl,
      show ((List.range w).foldl _ (gridLoop a b w n g v dst) : Image) =
        gridRow a b g v n w (gridLoop a b w n g v dst) from rfl]
    rw [gridRow_pix, ih]
    by_cases hrow : a ≤ x ∧ x < a + w ∧ y = b + n ∧ g (x - a) n = true
    · rw [if_pos hrow, if_pos ⟨hrow.1, hrow.2.1, by omega, by omega, by
        have : y - b = n := by omega
        rw [this]; exact hrow.2.2.2⟩]
      have : y - b = n := by omega
      rw [this]
    · rw [if_neg hrow]
      by_cases hin : a ≤ x ∧ x < a + w ∧ b ≤ y ∧ y < b + n ∧ g (x - a) (y - b) = true
      · rw [if_pos hin, if_pos ⟨hin.1, hin.2.1, hin.2.2.1, by omega, hin.2.2.2.2⟩]
      · rw [if_neg hin, if_neg (by
          intro ⟨h1, h2, h3, h4, h5⟩
          by_cases hy : y = b + n
          · exact hrow ⟨h1, h2, hy, by
              have : y - b = n := by omega
              rw [← this]; exact h5⟩
          · exact hin ⟨h1, h2, h3, by omega, h5⟩)]

/-! ## Image operations of the source (`extract_content`, `extract_region`,
`copy_region`, `copy_image`, `resize_image`) -/

/-- Source `extract_content`: strip the 1-pixel border; output `(x,y)` = input `(x+1,y+1)`. -/
def extract_content (img : Image) : Image :=
  gridLoop 0 0 (img.width - 2) (img.height - 2) (fun _ _ => true)
    (fun x y => get_pixel img (x + 1) (y + 1))
    (ImageBuffer.new (img.width - 2) (img.height - 2))

/-- Source `extract_region`: copy the `w × h` rectangle at `(x, y)` out of `img`
(pixels out of the source's range are left zero-initialized). -/
def extract_region (img : Image) (x y w h : Nat) : Image :=
  gridLoop 0 0 w h
    (fun dx dy => decide (x + dx < img.width) && decide (y + dy < img.height))
    (fun dx dy => get_pixel img (x + dx) (y + dy))
    (ImageBuffer.new w h)

/-- Source `copy_region`: copy the `w × h` rectangle at `(sx, sy)` of `src` onto
`dst` at `(dx, dy)`, skipping any pixel out of either image's range. -/
def copy_region (src dst : Image) (sx sy w h dx dy : Nat) : Image :=
  gridLoop dx dy w h
    (fun i j => decide (sx + i < src.width) && decide (sy + j < src.height) &&
      decide (dx + i < dst.width) && decide (dy + j < dst.height))
    (fun i j => get_pixel src (sx + i) (sy + j))
    dst

/-- Source `copy_image`: copy all of `src` onto `dst` at `(dx, dy)`. -/
def copy_image (src dst : Image) (dx dy : Nat) : Image :=
  copy_region src dst 0 0 src.width src.height dx dy

/-- Source `resize_image`: nearest-neighbor resize to `nw × nh`; destination `(x,y)`
samples source `(min (x*sw/nw) (sw-1), min (y*sh/nh) (sh-1))`. -/
def resize_image (src : Image) (nw nh : Nat) : Image :=
  gridLoop 0 0 nw nh (fun _ _ => true)
    (fun x y => get_pixel src
      (min ((x * src.width) / nw) (src.width - 1))
      (min ((y * src.height) / nh) (src.height - 1)))
    (ImageBuffer.new nw nh)

theorem extract_content_width (img : Image) :
    (extract_content img).width = img.width - 2 := by
  rw [extract_content, gridLoop_width]; rfl

theorem extract_content_height (img : Image) :
    (extract_content img).height = img.height - 2 := by
  rw [extract_content, gridLoop_height]; rfl

theorem extract_content_pix (img : Image) (x y : Nat)
    (hx : x < img.width - 2) (hy : y < img.height - 2) :
    (extract_content img).pix x y = img.pix (x + 1) (y + 1) := by
  rw [extract_content, gridLoop_pix, if_pos ⟨Nat.zero_le _, by omega, Nat.zero_le _,
    by omega, rfl⟩]
  simp [get_pixel]

theorem copy_region_width (src dst : Image) (sx sy w h dx dy : Nat) :
    (copy_region src dst sx sy w h dx dy).width = dst.width := by
  rw [copy_region, gridLoop_width]

theorem copy_region_height (src dst : Image) (sx sy w h dx dy : Nat) :
    (copy_region src dst sx sy w h dx dy).height = dst.height := by
  rw [copy_region, gridLoop_height]

theorem copy_region_pix (src dst : Image) (sx sy w h dx dy x y : Nat) :
    (copy_region src dst sx sy w h dx dy).pix x y =
      if dx ≤ x ∧ x < dx + w ∧ dy ≤ y ∧ y < dy + h ∧
          sx + (x - dx) < src.width ∧ sy + (y - dy) < src.height ∧
          dx + (x - dx) < dst.width ∧ dy + (y - dy) < dst.height
      then src.pix (sx + (x - dx)) (sy + (y - dy))
      else dst.pix x y := by
  rw [copy_region, gridLoop_pix]
  by_cases hc : dx ≤ x ∧ x < dx + w ∧ dy ≤ y ∧ y < dy + h ∧
      sx + (x - dx) < src.width ∧ sy + (y - dy) < src.height ∧
      dx + (x - dx) < dst.width ∧ dy + (y - dy) < dst.height
  · rw [if_pos ⟨hc.1, hc.2.1, hc.2.2.1, hc.2.2.2.1, by
      simp only [Bool.and_eq_true, decide_eq_true_eq]
      exact ⟨⟨⟨hc.2.2.2.2.1, hc.2.2.2.2.2.1⟩, hc.2.2.2.2.2.2.1⟩, hc.2.2.2.2.2.2.2⟩⟩,
      if_pos hc]
    rfl
  · rw [if_neg (by
      intro ⟨h1, h2, h3, h4, h5⟩
      simp only [Bool.and_eq_true, decide_eq_true_eq] at h5
      exact hc ⟨h1, h2, h3, h4, h5.1.1.1, h5.1.1.2, h5.1.2, h5.2⟩), if_neg hc]

/-- A pixel strictly outside the destination rectangle is untouched by
`copy_region`. -/
theorem copy_region_pix_out (src dst : Image) (sx sy w h dx dy x y : Nat)
    (hout : ¬ (dx ≤ x ∧ x < dx + w ∧ dy ≤ y ∧ y < dy + h)) :
    (copy_region src dst sx sy w h dx dy).pix x y = dst.pix x y := by
  rw [copy_region_pix, if_neg (by
    intro ⟨h1, h2, h3, h4, _⟩
    exact hout ⟨h1, h2, h3, h4⟩)]

theorem copy_image_width (src dst : Image) (dx dy : Nat) :
    (copy_image src dst dx dy).width = dst.width := copy_region_width ..

theorem copy_image_height (src dst : Image) (dx dy : Nat) :
    (copy_image src dst dx dy).height = dst.height := copy_region_height ..

theorem copy_image_pix_out (src dst : Image) (dx dy x y : Nat)
    (hout : ¬ (dx ≤ x ∧ x < dx + src.width ∧ dy ≤ y ∧ y < dy + src.height)) :
    (copy_image src dst dx dy).pix x y = dst.pix x y := by
  rw [copy_image, copy_region_pix_out]
  exact hout

theorem resize_image_width (src : Image) (nw nh : Nat) :
    (resize_image src nw nh).width = nw := by
  rw [resize_image, gridLoop_width]; rfl

theorem resize_image_height (src : Image) (nw nh : Nat) :
    (resize_image src nw nh).height = nh := by
  rw [resize_image, gridLoop_height]; rfl

theorem resize_image_pix (src : Image) (nw nh x y : Nat)
    (hx : x < nw) (hy : y < nh) :
    (resize_image src nw nh).pix x y =
      src.pix (min ((x * src.width) / nw) (src.width - 1))
        (min ((y * src.height) / nh) (src.height - 1)) := by
  rw [resize_image, gridLoop_pix, if_pos ⟨Nat.zero_le _, by omega, Nat.zero_le _,
    by omega, rfl⟩]
  simp [get_pixel]

/-! ## Border-line scanners (`parse_stretch_line`, `parse_content_line`)

Both scan border indices `1 .. length-2` (Rust `for i in 1..length-1`),
tracking the first and last index whose pixel is the marker color, each
already shifted by `-1` into content coordinates.  They differ only in the
no-marker fallback. -/

/-- Pixel `i` of the scanned border line (`(i, coord)` horizontally,
`(coord, i)` vertically). -/
def linePix (img : Image) (coord : Nat) (horizontal : Bool) (i : Nat) : Rgba :=
  if horizontal then get_pixel img i coord else get_pixel img coord i

/-- The `pixel == black` test for index `i` of the scanned line. -/
def isMarker (img : Image) (coord : Nat) (horizontal : Bool) (i : Nat) : Bool :=
  decide (linePix img coord horizontal i = black)

/-- Loop body of both scanners: on a marker, set the start if still unset and
always update the end (both in content coordinates, `i - 1`). -/
def scanStep (p : Nat → Bool) (s : Option Nat × Option Nat) (i : Nat) :
    Option Nat × Option Nat :=
  if p i then
    (match s.1 with
     | none => some (i - 1)
     | some v => some v,
     some (i - 1))
  else s

/-- The `for i in 1..length-1` scan loop over the marker test `p`. -/
def lineScan (p : Nat → Bool) (length : Nat) : Option Nat × Option Nat :=
  (List.range' 1 (length - 2)).foldl (scanStep p) (none, none)

/-- Source `parse_stretch_line`: marker span of a border line; no-marker fallback is
the degenerate span `(length-2, length-2)`. -/
def parse_stretch_line (img : Image) (coord length : Nat) (horizontal : Bool) :
    Nat × Nat :=
  match lineScan (isMarker img coord horizontal) length with
  | (some start, some e) => (start, e + 1)
  | _ => (length - 2, length - 2)

/-- Source `parse_content_line`: same scan; no-marker fallback is the whole content
`(0, length-2)`. -/
def parse_content_line (img : Image) (coord length : Nat) (horizontal : Bool) :
    Nat × Nat :=
  match lineScan (isMarker img coord horizontal) length with
  | (some start, some e) => (start, e + 1)
  | _ => (0, length - 2)

/-- The border indices of the scanned range whose pixel is the marker color,
in increasing order. -/
def markerIdxs (img : Image) (coord length : Nat) (horizontal : Bool) :
    List Nat :=
  (List.range' 1 (length - 2)).filter (isMarker img coord horizontal)

/-- First-some-wins composition on `Option Nat`. -/
def orO (a b : Option Nat) : Option Nat :=
  match a with
  | some x => some x
  | none => b

theorem getLast?_cons_of_getLast? {i j : Nat} {l : List Nat}
    (h : l.getLast? = some j) : (i :: l).getLast? = some j := by
  cases l with
  | nil => simp at h
  | cons b t => rw [List.getLast?_cons_cons]; exact h

theorem scan_foldl_some (p : Nat → Bool) (l : List Nat) (a : Nat)
    (s₀ : Option Nat) :
    l.foldl (scanStep p) (some a, s₀) =
      (some a, orO ((l.filter p).getLast?.map (fun i => i - 1)) s₀) := by
  induction l generalizing s₀ with
  | nil => simp [orO]
  | cons i t ih =>
    rw [List.foldl_cons]
    by_cases hp : p i = true
    · rw [show scanStep p (some a, s₀) i = (some a, some (i - 1)) by
        simp [scanStep, hp]]
      rw [ih]
      rw [show (i :: t).filter p = i :: t.filter p by simp [List.filter, hp]]
      cases hgl : (t.filter p).getLast? with
      | none =>
        rw [List.getLast?_eq_none_iff] at hgl
        rw [hgl]
        simp [orO]
      | some j =>
        rw [getLast?_cons_of_getLast? hgl]
        simp [orO]
    · rw [show scanStep p (some a, s₀) i = (some a, s₀) by
        simp [scanStep, hp]]
      rw [ih]
      rw [show (i :: t).filter p = t.filter p by simp [List.filter, hp]]

theorem scan_foldl_none (p : Nat → Bool) (l : List Nat) (s₀ : Option Nat) :
    l.foldl (scanStep p) (none, s₀) =
      ((l.filter p).head?.map (fun i => i - 1),
        orO ((l.filter p).getLast?.map (fun i => i - 1)) s₀) := by
  induction l generalizing s₀ with
  | nil => simp [orO]
  | cons i t ih =>
    rw [List.foldl_cons]
    by_cases hp : p i = true
    · rw [show scanStep p (none, s₀) i = (some (i - 1), some (i - 1)) by
        simp [scanStep, hp]]
      rw [scan_foldl_some]
      rw [show (i :: t).filter p = i :: t.filter p by simp [List.filter, hp]]
      cases hgl : (t.filter p).getLast? with
      | none =>
        rw [List.getLast?_eq_none_iff] at hgl
        rw [hgl]
        simp [orO]
      | some j =>
        rw [getLast?_cons_of_getLast? hgl]
        simp [orO]
    · rw [show scanStep p (none, s₀) i = (none, s₀) by simp [scanStep, hp]]
      rw [ih]
      rw [show (i :: t).filter p = t.filter p by simp [List.filter, hp]]

/-- Closed form of the scan loop in terms of the first/last marker indices. -/
theorem lineScan_eq (img : Image) (coord length : Nat) (horizontal : Bool) :
    lineScan (isMarker img coord horizontal) length =
      ((markerIdxs img coord length horizontal).head?.map (fun i => i - 1),
        (markerIdxs img coord length horizontal).getLast?.map (fun i => i - 1)) := by
  rw [lineScan, scan_foldl_none, markerIdxs]
  cases hgl : ((List.range' 1 (length - 2)).filter
      (isMarker img coord horizontal)).getLast? <;> simp [orO, hgl]

/-- With at least one marker, both scanners return
`(first - 1, (last - 1) + 1)`. -/
theorem parse_line_of_markers (img : Image) (coord length : Nat)
    (horizontal : Bool) (f lst : Nat)
    (hf : (markerIdxs img coord length horizontal).head? = some f)
    (hl : (markerIdxs img coord length horizontal).getLast? = some lst) :
    parse_stretch_line img coord length horizontal = (f - 1, (lst - 1) + 1) ∧
    parse_content_line img coord length horizontal = (f - 1, (lst - 1) + 1) := by
  constructor
  · rw [parse_stretch_line, lineScan_eq, hf, hl]
    rfl
  · rw [parse_content_line, lineScan_eq, hf, hl]
    rfl

/-- With no marker, the two scanners take their distinct fallbacks. -/
theorem parse_line_no_markers (img : Image) (coord length : Nat)
    (horizontal : Bool)
    (hnm : markerIdxs img coord length horizontal = []) :
    parse_stretch_line img coord length horizontal = (length - 2, length - 2) ∧
    parse_content_line img coord length horizontal = (0, length - 2) := by
  constructor
  · rw [parse_stretch_line, lineScan_eq, hnm]; rfl
  · rw [parse_content_line, lineScan_eq, hnm]; rfl

theorem scan_foldl_congr (p q : Nat → Bool) (l : List Nat)
    (h : ∀ i ∈ l, p i = q i) (s : Option Nat × Option Nat) :
    l.foldl (scanStep p) s = l.foldl (scanStep q) s := by
  induction l generalizing s with
  | nil => rfl
  | cons i t ih =>
    rw [List.foldl_cons, List.foldl_cons,
      show scanStep p s i = scanStep q s i by
        rw [scanStep, scanStep, h i (List.mem_cons_self i t)]]
    exact ih (fun j hj => h j (List.mem_cons_of_mem i hj)) _

/-- The scanners read only the scanned line indices `1 ≤ i`, `i + 1 < length`:
two images agreeing there (corners and everything else free) scan alike. -/
theorem parse_line_congr (img img' : Image) (coord length : Nat)
    (horizontal : Bool)
    (h : ∀ i, 1 ≤ i → i + 1 < length →
      linePix img' coord horizontal i = linePix img coord horizontal i) :
    parse_stretch_line img' coord length horizontal =
      parse_stretch_line img coord length horizontal ∧
    parse_content_line img' coord length horizontal =
      parse_content_line img coord length horizontal := by
  have hscan : lineScan (isMarker img' coord horizontal) length =
      lineScan (isMarker img coord horizontal) length := by
    rw [lineScan, lineScan]
    apply scan_foldl_congr
    intro i hi
    rw [List.mem_range'_1] at hi
    rw [isMarker, isMarker, h i hi.1 (by omega)]
  exact ⟨by rw [parse_stretch_line, parse_stretch_line, hscan],
    by rw [parse_content_line, parse_content_line, hscan]⟩

/-- Every marker index lies in the scanned range. -/
theorem markerIdxs_mem_bounds (img : Image) (coord length : Nat)
    (horizontal : Bool) (i : Nat)
    (hi : i ∈ markerIdxs img coord length horizontal) :
    1 ≤ i ∧ i < length - 1 := by
  rw [markerIdxs, List.mem_filter, List.mem_range'_1] at hi
  omega

/-- The marker-index list is strictly increasing, so its head is at most its
last element. -/
theorem markerIdxs_head_le_getLast (img : Image) (coord length : Nat)
    (horizontal : Bool) (f lst : Nat)
    (hf : (markerIdxs img coord length horizontal).head? = some f)
    (hl : (markerIdxs img coord length horizontal).getLast? = some lst) :
    f ≤ lst := by
  have hpw : (markerIdxs img coord length horizontal).Pairwise (· < ·) := by
    rw [markerIdxs]
    exact (List.pairwise_lt_range' 1 (length - 2)).filter _
  cases hm : markerIdxs img coord length horizontal with
  | nil => rw [hm] at hf; simp at hf
  | cons a t =>
    rw [hm] at hf hl hpw
    rw [List.head?_cons] at hf
    have hmem : lst ∈ a :: t := List.mem_of_mem_getLast? hl
    have haf : a = f := by injection hf
    cases List.mem_cons.mp hmem with
    | inl heq => omega
    | inr hmemt =>
      have := List.rel_of_pairwise_cons hpw hmemt
      omega

/-- `parse_stretch_line` returns a half-open span `(a, b)` with
`a ≤ b ≤ length - 2`. -/
theorem parse_stretch_line_bounds (img : Image) (coord length : Nat)
    (horizontal : Bool) :
    (parse_stretch_line img coord length horizontal).1 ≤
      (parse_stretch_line img coord length horizontal).2 ∧
    (parse_stretch_line img coord length horizontal).2 ≤ length - 2 := by
  cases hm : markerIdxs img coord length horizontal with
  | nil =>
    rw [(parse_line_no_markers img coord length horizontal hm).1]
    omega
  | cons a t =>
    have hf : (markerIdxs img coord length horizontal).head? = some a := by
      rw [hm]; rfl
    obtain ⟨lst, hl⟩ : ∃ lst,
        (markerIdxs img coord length horizontal).getLast? = some lst := by
      rw [hm]
      cases hgl : (a :: t).getLast? with
      | none => rw [List.getLast?_eq_none_iff] at hgl; simp at hgl
      | some j => exact ⟨j, rfl⟩
    rw [(parse_line_of_markers img coord length horizontal a lst hf hl).1]
    have hle := markerIdxs_head_le_getLast img coord length horizontal a lst hf hl
    have hb := markerIdxs_mem_bounds img coord length horizontal lst
      (List.mem_of_mem_getLast? hl)
    constructor
    · omega
    · omega

/-! ## Stretch / content metadata parsers and the scaler -/

structure StretchInfo where
  left_fixed : Nat
  right_fixed : Nat
  top_fixed : Nat
  bottom_fixed : Nat
  stretch_left : Nat
  stretch_right : Nat
  stretch_top : Nat
  stretch_bottom : Nat
deriving DecidableEq, Repr

/-- Source `parse_nine_patch_borders`: scan the top row and left column, then derive
the fixed-region sizes.  (The source wraps this in `Result` but has no failure
path of its own.) -/
def parse_nine_patch_borders (img : Image) : StretchInfo :=
  let sl := parse_stretch_line img 0 img.width true
  let st := parse_stretch_line img 0 img.height false
  let content_width := img.width - 2
  let content_height := img.height - 2
  { left_fixed := sl.1
    right_fixed := content_width - sl.2
    top_fixed := st.1
    bottom_fixed := content_height - st.2
    stretch_left := sl.1
    stretch_right := sl.2
    stretch_top := st.1
    stretch_bottom := st.2 }

/-- Source `scale_nine_patch`: compose the nine regions onto a zero-initialized
`target_width × target_height` buffer.  (The source wraps the result in
`Ok`; it has no failure path.) -/
def scale_nine_patch (content : Image) (si : StretchInfo)
    (target_width target_height : Nat) : Image :=
  let extra_width := target_width - (si.left_fixed + si.right_fixed)
  let extra_height := target_height - (si.top_fixed + si.bottom_fixed)
  let result := ImageBuffer.new target_width target_height
  let result := copy_region content result 0 0 si.left_fixed si.top_fixed 0 0
  let top_stretch_width := si.stretch_right - si.stretch_left
  let result :=
    if 0 < top_stretch_width then
      copy_image (resize_image
          (extract_region content si.stretch_left 0 top_stretch_width si.top_fixed)
          extra_width si.top_fixed)
        result si.left_fixed 0
    else result
  let result := copy_region content result si.stretch_right 0
    si.right_fixed si.top_fixed (si.left_fixed + extra_width) 0
  let left_stretch_height := si.stretch_bottom - si.stretch_top
  let result :=
    if 0 < left_stretch_height then
      copy_image (resize_image
          (extract_region content 0 si.stretch_top si.left_fixed left_stretch_height)
          si.left_fixed extra_height)
        result 0 si.top_fixed
    else result
  let result :=
    if 0 < top_stretch_width ∧ 0 < left_stretch_height then
      copy_image (resize_image
          (extract_region content si.stretch_left si.stretch_top
            top_stretch_width left_stretch_height)
          extra_width extra_height)
        result si.left_fixed si.top_fixed
    else result
  let result :=
    if 0 < left_stretch_height then
      copy_image (resize_image
          (extract_region content si.stretch_right si.stretch_top
            si.right_fixed left_stretch_height)
          si.right_fixed extra_height)
        result (si.left_fixed + extra_width) si.top_fixed
    else result
  let result := copy_region content result 0 si.stretch_bottom
    si.left_fixed si.bottom_fixed 0 (si.top_fixed + extra_height)
  let result :=
    if 0 < top_stretch_width then
      copy_image (resize_image
          (extract_region content si.stretch_left si.stretch_bottom
            top_stretch_width si.bottom_fixed)
          extra_width si.bottom_fixed)
        result si.left_fixed (si.top_fixed + extra_height)
    else result
  copy_region content result si.stretch_right si.stretch_bottom
    si.right_fixed si.bottom_fixed (si.left_fixed + extra_width)
    (si.top_fixed + extra_height)

structure ContentInfo where
  content_left : Nat
  content_top : Nat
  content_right : Nat
  content_bottom : Nat
deriving DecidableEq, Repr

/-- Source `parse_content_borders`: scan the bottom row and the right column; the
raw span ends become distances from the right/bottom edges. -/
def parse_content_borders (img : Image) : ContentInfo :=
  let hspan := parse_content_line img (img.height - 1) img.width true
  let vspan := parse_content_line img (img.width - 1) img.height false
  let content_width := img.width - 2
  let content_height := img.height - 2
  { content_left := hspan.1
    content_top := vspan.1
    content_right := content_width - hspan.2
    content_bottom := content_height - vspan.2 }

inductive NinePatchError where
  | InvalidImage
  | TargetTooSmall
  | InvalidFormat
deriving DecidableEq, Repr

/-- Rust's `u32::to_le_bytes`. -/
def u32_to_le_bytes (n : Nat) : List Nat :=
  [n % 256, n / 256 % 256, n / 65536 % 256, n / 16777216 % 256]

/-- Rust's `u32::from_le_bytes([bs[0], bs[1], bs[2], bs[3]])`.  The source indexes
the slice unconditionally; a slice shorter than 4 bytes panics, modelled as
`none`. -/
def u32_from_le_bytes (bs : List Nat) : Option Nat :=
  match bs with
  | b0 :: b1 :: b2 :: b3 :: _ =>
      some (b0 + b1 * 256 + b2 * 65536 + b3 * 16777216)
  | _ => none

/-- Source `nine_patch_impl`, from the decoded image on (decoding is the external
codec, abstracted as the `Option Image` argument; PNG encoding is abstracted
as `enc`, `none` standing for an encoder failure). -/
def nine_patch_impl (decoded : Option Image) (target_width target_height : Nat)
    (enc : Image → Option (List Nat)) : Except NinePatchError (List Nat) :=
  match decoded with
  | none => .error .InvalidImage
  | some img =>
    if img.width < 3 ∨ img.height < 3 then .error .InvalidImage
    else
      let stretch_info := parse_nine_patch_borders img
      let min_width := stretch_info.left_fixed + stretch_info.right_fixed
      let min_height := stretch_info.top_fixed + stretch_info.bottom_fixed
      if target_width < min_width ∨ target_height < min_height then
        .error .TargetTooSmall
      else
        let content_img := extract_content img
        let result_img := scale_nine_patch content_img stretch_info
          target_width target_height
        match enc result_img with
        | some bytes => .ok bytes
        | none => .error .InvalidFormat

/-- Boundary `nine_patch`: parse the two 4-byte little-endian sizes (panic on
short slices, modelled as `none`), then return the impl's bytes, or an empty
byte sequence on any error. -/
def nine_patch (decoded : Option Image) (width height : List Nat)
    (enc : Image → Option (List Nat)) : Option (List Nat) :=
  match u32_from_le_bytes width, u32_from_le_bytes height with
  | some tw, some th =>
      some (match nine_patch_impl decoded tw th enc with
        | .ok result => result
        | .error _ => [])
  | _, _ => none

/-- Source `nine_patch_content_info_impl`: the 24-byte metadata record. -/
def nine_patch_content_info_impl (decoded : Option Image) :
    Except NinePatchError (List Nat) :=
  match decoded with
  | none => .error .InvalidImage
  | some img =>
    if img.width < 3 ∨ img.height < 3 then .error .InvalidImage
    else
      let content_info := parse_content_borders img
      let stretch_info := parse_nine_patch_borders img
      let min_width := stretch_info.left_fixed + stretch_info.right_fixed
      let min_height := stretch_info.top_fixed + stretch_info.bottom_fixed
      .ok (u32_to_le_bytes content_info.content_left ++
        u32_to_le_bytes content_info.content_top ++
        u32_to_le_bytes content_info.content_right ++
        u32_to_le_bytes content_info.content_bottom ++
        u32_to_le_bytes min_width ++
        u32_to_le_bytes min_height)

/-! ## The nine destination rectangles of `scale_nine_patch`

`destRects` lists, in the order the source writes them, the destination
rectangle of each of the nine placements.  A placement the source skips
(degenerate stretch span) is listed with width 0, covering nothing, exactly
as the skipped copy writes nothing. -/

structure Rect where
  x : Nat
  y : Nat
  w : Nat
  h : Nat
deriving DecidableEq, Repr

def covers (r : Rect) (px py : Nat) : Prop :=
  r.x ≤ px ∧ px < r.x + r.w ∧ r.y ≤ py ∧ py < r.y + r.h

instance (r : Rect) (px py : Nat) : Decidable (covers r px py) :=
  inferInstanceAs (Decidable (r.x ≤ px ∧ px < r.x + r.w ∧ r.y ≤ py ∧ py < r.y + r.h))

def destRects (si : StretchInfo) (target_width target_height : Nat) :
    List Rect :=
  let ew := target_width - (si.left_fixed + si.right_fixed)
  let eh := target_height - (si.top_fixed + si.bottom_fixed)
  let tsw := si.stretch_right - si.stretch_left
  let lsh := si.stretch_bottom - si.stretch_top
  [⟨0, 0, si.left_fixed, si.top_fixed⟩,
   ⟨si.left_fixed, 0, if 0 < tsw then ew else 0, si.top_fixed⟩,
   ⟨si.left_fixed + ew, 0, si.right_fixed, si.top_fixed⟩,
   ⟨0, si.top_fixed, si.left_fixed, if 0 < lsh then eh else 0⟩,
   ⟨si.left_fixed, si.top_fixed, if 0 < tsw ∧ 0 < lsh then ew else 0,
     if 0 < tsw ∧ 0 < lsh then eh else 0⟩,
   ⟨si.left_fixed + ew, si.top_fixed, si.right_fixed,
     if 0 < lsh then eh else 0⟩,
   ⟨0, si.top_fixed + eh, si.left_fixed, si.bottom_fixed⟩,
   ⟨si.left_fixed, si.top_fixed + eh, if 0 < tsw then ew else 0,
     si.bottom_fixed⟩,
   ⟨si.left_fixed + ew, si.top_fixed + eh, si.right_fixed,
     si.bottom_fixed⟩]

/-- How many of the nine placements cover pixel `(px, py)`. -/
def coverCount (rs : List Rect) (px py : Nat) : Nat :=
  rs.countP (fun r => decide (covers r px py))

/-- The `StretchInfo` invariants stated by the design (content-space
coordinates of a `cw × ch` content rectangle). -/
def validStretchInfo (si : StretchInfo) (cw ch : Nat) : Prop :=
  si.left_fixed = si.stretch_left ∧
  si.top_fixed = si.stretch_top ∧
  si.right_fixed = cw - si.stretch_right ∧
  si.bottom_fixed = ch - si.stretch_bottom ∧
  si.stretch_left ≤ si.stretch_right ∧
  si.stretch_right ≤ cw ∧
  si.stretch_top ≤ si.stretch_bottom ∧
  si.stretch_bottom ≤ ch

instance (si : StretchInfo) (cw ch : Nat) :
    Decidable (validStretchInfo si cw ch) :=
  inferInstanceAs (Decidable (si.left_fixed = si.stretch_left ∧
    si.top_fixed = si.stretch_top ∧
    si.right_fixed = cw - si.stretch_right ∧
    si.bottom_fixed = ch - si.stretch_bottom ∧
    si.stretch_left ≤ si.stretch_right ∧
    si.stretch_right ≤ cw ∧
    si.stretch_top ≤ si.stretch_bottom ∧
    si.stretch_bottom ≤ ch))

/-! ## Concrete images used to instantiate the theorems -/

def white : Rgba := ⟨255, 255, 255, 255⟩

/-- A 3×3 all-white image: no markers anywhere, 1×1 content. -/
def img3 : Image := ⟨3, 3, fun _ _ => white⟩

/-- A 5×5 image with one stretch marker at `(2,0)` on the top row and one at
`(0,2)` on the left column; 3×3 content. -/
def img5 : Image :=
  ⟨5, 5, fun x y => if (x = 2 ∧ y = 0) ∨ (x = 0 ∧ y = 2) then black else white⟩

/-! ## Claims about the scanners -/

/-- C3: on a border line of length ≥ 3 whose scanned indices `1..length-2`
contain a marker, both scanners return `(first - 1, (last - 1) + 1)` — the
half-open span in content coordinates from the first to the last marker,
collapsing gaps — and neither scanner examines the corner pixels at indices
`0` and `length-1` (any image agreeing on the scanned indices scans alike). -/
theorem scanners_marker_span (img : Image) (coord length : Nat)
    (horizontal : Bool) (f lst : Nat) (h3 : 3 ≤ length)
    (hf : (markerIdxs img coord length horizontal).head? = some f)
    (hl : (markerIdxs img coord length horizontal).getLast? = some lst) :
    parse_stretch_line img coord length horizontal = (f - 1, (lst - 1) + 1) ∧
    parse_content_line img coord length horizontal = (f - 1, (lst - 1) + 1) ∧
    ∀ img' : Image,
      (∀ i, 1 ≤ i → i + 1 < length →
        linePix img' coord horizontal i = linePix img coord horizontal i) →
      parse_stretch_line img' coord length horizontal =
        parse_stretch_line img coord length horizontal ∧
      parse_content_line img' coord length horizontal =
        parse_content_line img coord length horizontal := by
  refine ⟨(parse_line_of_markers img coord length horizontal f lst hf hl).1,
    (parse_line_of_markers img coord length horizontal f lst hf hl).2,
    fun img' h => parse_line_congr img img' coord length horizontal h⟩

theorem scanners_marker_span_witness :
    parse_stretch_line img5 0 5 true = (1, 2) ∧
    parse_content_line img5 0 5 true = (1, 2) := by
  have h := scanners_marker_span img5 0 5 true 2 2 (by decide) (by decide)
    (by decide)
  exact ⟨h.1, h.2.1⟩

/-- C4: on a border line of length ≥ 3 with no marker among the scanned
indices, the stretch scanner falls back to the degenerate end span
`(length-2, length-2)` while the content scanner falls back to the full
content `(0, length-2)`, and these two fallbacks differ. -/
theorem scanners_no_marker_fallback (img : Image) (coord length : Nat)
    (horizontal : Bool) (h3 : 3 ≤ length)
    (hnm : markerIdxs img coord length horizontal = []) :
    parse_stretch_line img coord length horizontal = (length - 2, length - 2) ∧
    parse_content_line img coord length horizontal = (0, length - 2) ∧
    parse_stretch_line img coord length horizontal ≠
      parse_content_line img coord length horizontal := by
  have h := parse_line_no_markers img coord length horizontal hnm
  refine ⟨h.1, h.2, ?_⟩
  rw [h.1, h.2]
  intro hc
  rw [Prod.ext_iff] at hc
  simp only at hc
  omega

theorem scanners_no_marker_fallback_witness :
    parse_stretch_line img3 0 3 true = (1, 1) ∧
    parse_content_line img3 0 3 true = (0, 1) := by
  have h := scanners_no_marker_fallback img3 0 3 true (by decide) (by decide)
  exact ⟨h.1, h.2.1⟩

/-- C5: for any decoded image of width ≥ 3 and height ≥ 3 the parsed
`StretchInfo` satisfies the design invariants: the fixed sizes are determined
by the stretch span and the content extent, and the spans are ordered and
bounded by the content extent (so the subtractions never underflow). -/
theorem parse_nine_patch_borders_invariants (img : Image)
    (hw : 3 ≤ img.width) (hh : 3 ≤ img.height) :
    validStretchInfo (parse_nine_patch_borders img)
      (img.width - 2) (img.height - 2) := by
  have hx := parse_stretch_line_bounds img 0 img.width true
  have hy := parse_stretch_line_bounds img 0 img.height false
  rw [validStretchInfo, parse_nine_patch_borders]
  refine ⟨rfl, rfl, rfl, rfl, hx.1, ?_, hy.1, ?_⟩
  · show (parse_stretch_line img 0 img.width true).2 ≤ img.width - 2
    omega
  · show (parse_stretch_line img 0 img.height false).2 ≤ img.height - 2
    omega

theorem parse_nine_patch_borders_invariants_witness :
    validStretchInfo (parse_nine_patch_borders img5)
      (img5.width - 2) (img5.height - 2) :=
  parse_nine_patch_borders_invariants img5 (by decide) (by decide)

/-! ## Claim about the resizer -/

/-- C7: `resize_image` produces a `nw × nh` image; each destination pixel is
the clamped nearest-neighbor sample of the source, and the clamped
coordinates never leave the source's range. -/
theorem resize_image_nearest_neighbor (src : Image) (nw nh x y : Nat)
    (hsw : 1 ≤ src.width) (hsh : 1 ≤ src.height)
    (hx : x < nw) (hy : y < nh) :
    (resize_image src nw nh).width = nw ∧
    (resize_image src nw nh).height = nh ∧
    (resize_image src nw nh).pix x y =
      src.pix (min ((x * src.width) / nw) (src.width - 1))
        (min ((y * src.height) / nh) (src.height - 1)) ∧
    min ((x * src.width) / nw) (src.width - 1) < src.width ∧
    min ((y * src.height) / nh) (src.height - 1) < src.height := by
  refine ⟨resize_image_width src nw nh, resize_image_height src nw nh,
    resize_image_pix src nw nh x y hx hy, ?_, ?_⟩
  · have := Nat.min_le_right ((x * src.width) / nw) (src.width - 1)
    omega
  · have := Nat.min_le_right ((y * src.height) / nh) (src.height - 1)
    omega

theorem resize_image_nearest_neighbor_witness :
    (resize_image (extract_content img3) 2 2).width = 2 ∧
    (resize_image (extract_content img3) 2 2).pix 1 1 =
      (extract_content img3).pix
        (min ((1 * (extract_content img3).width) / 2)
          ((extract_content img3).width - 1))
        (min ((1 * (extract_content img3).height) / 2)
          ((extract_content img3).height - 1)) := by
  have h := resize_image_nearest_neighbor (extract_content img3) 2 2 1 1
    (by rw [extract_content_width]; decide) (by rw [extract_content_height]; decide)
    (by decide) (by decide)
  exact ⟨h.1, h.2.2.1⟩

/-! ## Claims about the byte-level boundary -/

theorem u32_from_le_bytes_eq_none_iff (bs : List Nat) :
    u32_from_le_bytes bs = none ↔ bs.length < 4 := by
  match bs with
  | [] => simp [u32_from_le_bytes]
  | [_] => simp [u32_from_le_bytes]
  | [_, _] => simp [u32_from_le_bytes]
  | [_, _, _] => simp [u32_from_le_bytes]
  | _ :: _ :: _ :: _ :: t => simp [u32_from_le_bytes]

theorem u32_from_le_bytes_take (bs : List Nat) :
    u32_from_le_bytes bs = u32_from_le_bytes (bs.take 4) := by
  match bs with
  | [] => rfl
  | [_] => rfl
  | [_, _] => rfl
  | [_, _, _] => rfl
  | _ :: _ :: _ :: _ :: t => rfl

/-- C10: the boundary `nine_patch` indexes the first four bytes of the width
and height arguments before any error handling: it panics (modelled `none`)
exactly when one of the two slices is shorter than 4 bytes — instead of the
empty-bytes error result — and bytes beyond the first four are ignored. -/
theorem nine_patch_first_four_bytes (decoded : Option Image)
    (wb hb : List Nat) (enc : Image → Option (List Nat)) :
    (nine_patch decoded wb hb enc = none ↔ wb.length < 4 ∨ hb.length < 4) ∧
    ∀ wb' hb', wb.take 4 = wb'.take 4 → hb.take 4 = hb'.take 4 →
      nine_patch decoded wb hb enc = nine_patch decoded wb' hb' enc := by
  constructor
  · rw [nine_patch]
    cases hw : u32_from_le_bytes wb with
    | none =>
      have := (u32_from_le_bytes_eq_none_iff wb).mp hw
      simp [this]
    | some tw =>
      have hw4 : ¬ wb.length < 4 := by
        intro hlt
        rw [← u32_from_le_bytes_eq_none_iff] at hlt
        rw [hw] at hlt
        exact Option.noConfusion hlt
      cases hh : u32_from_le_bytes hb with
      | none =>
        have := (u32_from_le_bytes_eq_none_iff hb).mp hh
        simp [this, hw4]
      | some th =>
        have hh4 : ¬ hb.length < 4 := by
          intro hlt
          rw [← u32_from_le_bytes_eq_none_iff] at hlt
          rw [hh] at hlt
          exact Option.noConfusion hlt
        simp [hw4, hh4]
  · intro wb' hb' hwt hht
    rw [nine_patch, nine_patch, u32_from_le_bytes_take wb,
      u32_from_le_bytes_take hb, hwt, hht, ← u32_from_le_bytes_take wb',
      ← u32_from_le_bytes_take hb']

theorem nine_patch_first_four_bytes_witness :
    nine_patch none [0, 0, 0] [0, 0, 0, 0] (fun _ => none) = none ∧
    nine_patch none [0, 0, 0, 0, 7] [0, 0, 0, 0] (fun _ => none) =
      nine_patch none [0, 0, 0, 0] [0, 0, 0, 0] (fun _ => none) := by
  refine ⟨(nine_patch_first_four_bytes none [0, 0, 0] [0, 0, 0, 0]
      (fun _ => none)).1.mpr (Or.inl (by decide)),
    (nine_patch_first_four_bytes none [0, 0, 0, 0, 7] [0, 0, 0, 0]
      (fun _ => none)).2 [0, 0, 0, 0] [0, 0, 0, 0] (by decide) (by decide)⟩

/-- C2: for a decoded image of width ≥ 3 and height ≥ 3, the resize pipeline
fails with `TargetTooSmall` exactly when the target is below the minimum
`(left_fixed + right_fixed) × (top_fixed + bottom_fixed)` computed from that
image's stretch parse, and on that failure the boundary `nine_patch` returns
the empty byte sequence. -/
theorem nine_patch_target_too_small_iff (img : Image) (tw th : Nat)
    (enc : Image → Option (List Nat)) (wb hb : List Nat)
    (hw : 3 ≤ img.width) (hh : 3 ≤ img.height)
    (hwb : u32_from_le_bytes wb = some tw)
    (hhb : u32_from_le_bytes hb = some th) :
    (nine_patch_impl (some img) tw th enc = .error .TargetTooSmall ↔
      (tw < (parse_nine_patch_borders img).left_fixed +
          (parse_nine_patch_borders img).right_fixed ∨
        th < (parse_nine_patch_borders img).top_fixed +
          (parse_nine_patch_borders img).bottom_fixed)) ∧
    ((tw < (parse_nine_patch_borders img).left_fixed +
          (parse_nine_patch_borders img).right_fixed ∨
        th < (parse_nine_patch_borders img).top_fixed +
          (parse_nine_patch_borders img).bottom_fixed) →
      nine_patch (some img) wb hb enc = some []) := by
  have himpl : nine_patch_impl (some img) tw th enc =
      if tw < (parse_nine_patch_borders img).left_fixed +
          (parse_nine_patch_borders img).right_fixed ∨
        th < (parse_nine_patch_borders img).top_fixed +
          (parse_nine_patch_borders img).bottom_fixed then
        .error .TargetTooSmall
      else
        match enc (scale_nine_patch (extract_content img)
            (parse_nine_patch_borders img) tw th) with
        | some bytes => .ok bytes
        | none => .error .InvalidFormat := by
    rw [nine_patch_impl]
    rw [if_neg (by omega)]
  constructor
  · rw [himpl]
    by_cases hsmall : tw < (parse_nine_patch_borders img).left_fixed +
        (parse_nine_patch_borders img).right_fixed ∨
      th < (parse_nine_patch_borders img).top_fixed +
        (parse_nine_patch_borders img).bottom_fixed
    · rw [if_pos hsmall]
      simp [hsmall]
    · rw [if_neg hsmall]
      simp only [hsmall, iff_false]
      cases enc (scale_nine_patch (extract_content img)
          (parse_nine_patch_borders img) tw th) with
      | none => simp
      | some bytes => simp
  · intro hsmall
    rw [nine_patch, hwb, hhb]
    show some (match nine_patch_impl (some img) tw th enc with
      | .ok result => result
      | .error _ => []) = some []
    rw [himpl, if_pos hsmall]

theorem nine_patch_target_too_small_iff_witness :
    nine_patch_impl (some img3) 0 0 (fun _ => none) =
      .error .TargetTooSmall ∧
    nine_patch (some img3) [0, 0, 0, 0] [0, 0, 0, 0] (fun _ => none) =
      some [] := by
  have h := nine_patch_target_too_small_iff img3 0 0 (fun _ => none)
    [0, 0, 0, 0] [0, 0, 0, 0] (by decide) (by decide) (by decide) (by decide)
  exact ⟨h.1.mpr (Or.inl (by decide)), h.2 (Or.inl (by decide))⟩

/-- C6: for a decoded image of width ≥ 3 and height ≥ 3 the content-info
operation succeeds with exactly 24 bytes: six little-endian 4-byte unsigned
integers — the bottom-row and right-column span starts, the edge-relative
span ends, and the minimum sizes from the same image's stretch parse. -/
theorem content_info_record (img : Image)
    (hw : 3 ≤ img.width) (hh : 3 ≤ img.height) :
    nine_patch_content_info_impl (some img) = .ok
      (u32_to_le_bytes (parse_content_line img (img.height - 1) img.width true).1 ++
       u32_to_le_bytes (parse_content_line img (img.width - 1) img.height false).1 ++
       u32_to_le_bytes ((img.width - 2) -
         (parse_content_line img (img.height - 1) img.width true).2) ++
       u32_to_le_bytes ((img.height - 2) -
         (parse_content_line img (img.width - 1) img.height false).2) ++
       u32_to_le_bytes ((parse_nine_patch_borders img).left_fixed +
         (parse_nine_patch_borders img).right_fixed) ++
       u32_to_le_bytes ((parse_nine_patch_borders img).top_fixed +
         (parse_nine_patch_borders img).bottom_fixed)) ∧
    ∀ bs, nine_patch_content_info_impl (some img) = .ok bs →
      bs.length = 24 := by
  have hmain : nine_patch_content_info_impl (some img) = .ok
      (u32_to_le_bytes (parse_content_line img (img.height - 1) img.width true).1 ++
       u32_to_le_bytes (parse_content_line img (img.width - 1) img.height false).1 ++
       u32_to_le_bytes ((img.width - 2) -
         (parse_content_line img (img.height - 1) img.width true).2) ++
       u32_to_le_bytes ((img.height - 2) -
         (parse_content_line img (img.width - 1) img.height false).2) ++
       u32_to_le_bytes ((parse_nine_patch_borders img).left_fixed +
         (parse_nine_patch_borders img).right_fixed) ++
       u32_to_le_bytes ((parse_nine_patch_borders img).top_fixed +
         (parse_nine_patch_borders img).bottom_fixed)) := by
    rw [nine_patch_content_info_impl]
    rw [if_neg (by omega)]
    rfl
  refine ⟨hmain, fun bs hbs => ?_⟩
  rw [hmain] at hbs
  have : bs = u32_to_le_bytes (parse_content_line img (img.height - 1) img.width true).1 ++
       u32_to_le_bytes (parse_content_line img (img.width - 1) img.height false).1 ++
       u32_to_le_bytes ((img.width - 2) -
         (parse_content_line img (img.height - 1) img.width true).2) ++
       u32_to_le_bytes ((img.height - 2) -
         (parse_content_line img (img.width - 1) img.height false).2) ++
       u32_to_le_bytes ((parse_nine_patch_borders img).left_fixed +
         (parse_nine_patch_borders img).right_fixed) ++
       u32_to_le_bytes ((parse_nine_patch_borders img).top_fixed +
         (parse_nine_patch_borders img).bottom_fixed) := by
    injection hbs.symm
  rw [this]
  simp [u32_to_le_bytes]

theorem content_info_record_witness :
    nine_patch_content_info_impl (some img5) = .ok
      ([0, 0, 0, 0] ++ [0, 0, 0, 0] ++ [0, 0, 0, 0] ++ [0, 0, 0, 0] ++
        [2, 0, 0, 0] ++ [2, 0, 0, 0]) ∧
    ([0, 0, 0, 0] ++ [0, 0, 0, 0] ++ [0, 0, 0, 0] ++ [0, 0, 0, 0] ++
        [2, 0, 0, 0] ++ [2, 0, 0, 0] : List Nat).length = 24 := by
  have h := content_info_record img5 (by decide) (by decide)
  refine ⟨h.1.trans (congrArg Except.ok (by decide)), by decide⟩

/-! ## Tiling of the nine destination rectangles -/

/-- indicator of a decidable proposition -/
def ind (p : Prop) [Decidable p] : Nat := if p then 1 else 0

theorem ind_congr {p q : Prop} [Decidable p] [Decidable q] (h : p ↔ q) :
    ind p = ind q := by
  rw [ind, ind]
  exact if_congr h rfl rfl

theorem ind_mul (p q : Prop) [Decidable p] [Decidable q] :
    ind (p ∧ q) = ind p * ind q := by
  by_cases hp : p <;> by_cases hq : q <;> simp [ind, hp, hq]

theorem coverCount_nine (r1 r2 r3 r4 r5 r6 r7 r8 r9 : Rect) (x y : Nat) :
    coverCount [r1, r2, r3, r4, r5, r6, r7, r8, r9] x y =
      ind (covers r1 x y) + ind (covers r2 x y) + ind (covers r3 x y) +
      ind (covers r4 x y) + ind (covers r5 x y) + ind (covers r6 x y) +
      ind (covers r7 x y) + ind (covers r8 x y) + ind (covers r9 x y) := by
  simp only [coverCount, List.countP_cons, List.countP_nil, ind,
    decide_eq_true_eq]
  ring

theorem nine_prod (P1 P2 P3 Q1 Q2 Q3 : Prop)
    [Decidable P1] [Decidable P2] [Decidable P3]
    [Decidable Q1] [Decidable Q2] [Decidable Q3] :
    ind (P1 ∧ Q1) + ind (P2 ∧ Q1) + ind (P3 ∧ Q1) +
    ind (P1 ∧ Q2) + ind (P2 ∧ Q2) + ind (P3 ∧ Q2) +
    ind (P1 ∧ Q3) + ind (P2 ∧ Q3) + ind (P3 ∧ Q3) =
      (ind P1 + ind P2 + ind P3) * (ind Q1 + ind Q2 + ind Q3) := by
  simp only [ind_mul]
  ring

theorem bands_one (A B C t u : Nat) (g : Prop) [Decidable g]
    (hsum : A + B + C = t) (hu : u < t) (hg : 0 < B → g) :
    ind (u < A) + ind (g ∧ A ≤ u ∧ u < A + B) +
      ind (A + B ≤ u ∧ u < A + B + C) = 1 := by
  rcases Nat.lt_or_ge u A with h | h
  · rw [ind, if_pos h, ind, if_neg (by intro hc; exact absurd hc.2.1 (by omega)),
      ind, if_neg (by intro hc; exact absurd hc.1 (by omega))]
  · rcases Nat.lt_or_ge u (A + B) with h2 | h2
    · have hB : 0 < B := by omega
      rw [ind, if_neg (by omega), ind, if_pos ⟨hg hB, h, h2⟩,
        ind, if_neg (by intro hc; exact absurd hc.1 (by omega))]
    · rw [ind, if_neg (by omega), ind,
        if_neg (by intro hc; exact absurd hc.2.2 (by omega)),
        ind, if_pos ⟨h2, by omega⟩]

set_option maxHeartbeats 1000000 in
/-- C1 (amended): for a valid `StretchInfo` and an admissible target, if on
each axis the stretch span is nonempty or the target equals that axis's
minimum, then the nine destination rectangles cover every output pixel
exactly once.  (With a degenerate span and a target strictly above the
minimum the middle band is not covered; see the counterexample.) -/
theorem destRects_exact_tiling (si : StretchInfo) (cw ch tw th x y : Nat)
    (hv : validStretchInfo si cw ch)
    (hw : si.left_fixed + si.right_fixed ≤ tw)
    (hh : si.top_fixed + si.bottom_fixed ≤ th)
    (hndx : si.stretch_left < si.stretch_right ∨
      tw = si.left_fixed + si.right_fixed)
    (hndy : si.stretch_top < si.stretch_bottom ∨
      th = si.top_fixed + si.bottom_fixed)
    (hx : x < tw) (hy : y < th) :
    coverCount (destRects si tw th) x y = 1 := by
  obtain ⟨h1, h2, h3, h4, h5, h6, h7, h8⟩ := hv
  obtain ⟨lf, rf, tf, bf, sl, sr, st, sb⟩ := si
  simp only at h1 h2 h3 h4 h5 h6 h7 h8 hw hh hndx hndy
  simp only [destRects]
  generalize hEW : tw - (lf + rf) = EW
  generalize hEH : th - (tf + bf) = EH
  have hsx : lf + EW + rf = tw := by omega
  have hsy : tf + EH + bf = th := by omega
  have hgx : 0 < EW → 0 < sr - sl := by omega
  have hgy : 0 < EH → 0 < sb - st := by omega
  have e1 : covers ⟨0, 0, lf, tf⟩ x y ↔ ((x < lf) ∧ (y < tf)) := by
    simp only [covers]
    omega
  have e2 : covers ⟨lf, 0, if 0 < sr - sl then EW else 0, tf⟩ x y ↔
      ((0 < sr - sl ∧ lf ≤ x ∧ x < lf + EW) ∧ (y < tf)) := by
    by_cases hg : 0 < sr - sl
    · simp only [covers, if_pos hg]
      omega
    · simp only [covers, if_neg hg]
      omega
  have e3 : covers ⟨lf + EW, 0, rf, tf⟩ x y ↔
      ((lf + EW ≤ x ∧ x < lf + EW + rf) ∧ (y < tf)) := by
    simp only [covers]
    omega
  have e4 : covers ⟨0, tf, lf, if 0 < sb - st then EH else 0⟩ x y ↔
      ((x < lf) ∧ (0 < sb - st ∧ tf ≤ y ∧ y < tf + EH)) := by
    by_cases hg : 0 < sb - st
    · simp only [covers, if_pos hg]
      omega
    · simp only [covers, if_neg hg]
      omega
  have e5 : covers ⟨lf, tf, if 0 < sr - sl ∧ 0 < sb - st then EW else 0,
      if 0 < sr - sl ∧ 0 < sb - st then EH else 0⟩ x y ↔
      ((0 < sr - sl ∧ lf ≤ x ∧ x < lf + EW) ∧
       (0 < sb - st ∧ tf ≤ y ∧ y < tf + EH)) := by
    by_cases hg : 0 < sr - sl ∧ 0 < sb - st
    · simp only [covers, if_pos hg]
      omega
    · simp only [covers, if_neg hg]
      rcases not_and_or.mp hg with h | h <;> omega
  have e6 : covers ⟨lf + EW, tf, rf, if 0 < sb - st then EH else 0⟩ x y ↔
      ((lf + EW ≤ x ∧ x < lf + EW + rf) ∧
       (0 < sb - st ∧ tf ≤ y ∧ y < tf + EH)) := by
    by_cases hg : 0 < sb - st
    · simp only [covers, if_pos hg]
      omega
    · simp only [covers, if_neg hg]
      omega
  have e7 : covers ⟨0, tf + EH, lf, bf⟩ x y ↔
      ((x < lf) ∧ (tf + EH ≤ y ∧ y < tf + EH + bf)) := by
    simp only [covers]
    omega
  have e8 : covers ⟨lf, tf + EH, if 0 < sr - sl then EW else 0, bf⟩ x y ↔
      ((0 < sr - sl ∧ lf ≤ x ∧ x < lf + EW) ∧
       (tf + EH ≤ y ∧ y < tf + EH + bf)) := by
    by_cases hg : 0 < sr - sl
    · simp only [covers, if_pos hg]
      omega
    · simp only [covers, if_neg hg]
      omega
  have e9 : covers ⟨lf + EW, tf + EH, rf, bf⟩ x y ↔
      ((lf + EW ≤ x ∧ x < lf + EW + rf) ∧
       (tf + EH ≤ y ∧ y < tf + EH + bf)) := by
    simp only [covers]
    omega
  rw [coverCount_nine, ind_congr e1, ind_congr e2, ind_congr e3, ind_congr e4,
    ind_congr e5, ind_congr e6, ind_congr e7, ind_congr e8, ind_congr e9,
    nine_prod, bands_one lf EW rf tw x (0 < sr - sl) hsx hx hgx,
    bands_one tf EH bf th y (0 < sb - st) hsy hy hgy]

/-- C1 counterexample: the claim as stated fails.  The `StretchInfo` parsed
from the 3×3 all-white image (no markers, degenerate spans) is valid, the
2×1 target is admissible (`min = 1×1`), yet output pixel `(1,0)` is covered
by none of the nine placements. -/
theorem destRects_tiling_cex :
    validStretchInfo (parse_nine_patch_borders img3) 1 1 ∧
    (parse_nine_patch_borders img3).left_fixed +
      (parse_nine_patch_borders img3).right_fixed ≤ 2 ∧
    (parse_nine_patch_borders img3).top_fixed +
      (parse_nine_patch_borders img3).bottom_fixed ≤ 1 ∧
    (1 : Nat) < 2 ∧ (0 : Nat) < 1 ∧
    coverCount (destRects (parse_nine_patch_borders img3) 2 1) 1 0 = 0 := by
  decide

theorem destRects_exact_tiling_witness :
    coverCount (destRects (parse_nine_patch_borders img5) 4 4) 2 2 = 1 :=
  destRects_exact_tiling (parse_nine_patch_borders img5) 3 3 4 4 2 2
    (by decide) (by decide) (by decide) (Or.inl (by decide))
    (Or.inl (by decide)) (by decide) (by decide)

/-! ## Pixels the scaler never writes -/

theorem scale_nine_patch_width (content : Image) (si : StretchInfo)
    (tw th : Nat) : (scale_nine_patch content si tw th).width = tw := by
  simp [scale_nine_patch, copy_region_width, copy_image_width,
    apply_ite Image.width, ImageBuffer.new]

theorem scale_nine_patch_height (content : Image) (si : StretchInfo)
    (tw th : Nat) : (scale_nine_patch content si tw th).height = th := by
  simp [scale_nine_patch, copy_region_height, copy_image_height,
    apply_ite Image.height, ImageBuffer.new]

/-- A conditionally executed `copy_image` leaves pixel `(x,y)` unchanged
whenever, if the stage runs at all, `(x,y)` is outside its destination
rectangle. -/
theorem stage_pix_out (c : Prop) [Decidable c] (s R : Image)
    (dx dy x y w h : Nat) (hw : s.width = w) (hh : s.height = h)
    (hout : c → ¬ (dx ≤ x ∧ x < dx + w ∧ dy ≤ y ∧ y < dy + h)) :
    (if c then copy_image s R dx dy else R).pix x y = R.pix x y := by
  split
  · rename_i hc
    apply copy_image_pix_out
    rw [hw, hh]
    exact hout hc
  · rfl

/-- C9: the output buffer of `scale_nine_patch` is zero-initialized, and an
output pixel covered by none of the nine placements keeps the fully
transparent black value `(0,0,0,0)` — in particular this is what fills the
extra rows/columns when a stretch span is degenerate but the admissible
target exceeds the minimum on that axis. -/
theorem scale_nine_patch_unwritten (content : Image) (si : StretchInfo)
    (tw th x y : Nat) (hx : x < tw) (hy : y < th)
    (h : ∀ r ∈ destRects si tw th, ¬ covers r x y) :
    (scale_nine_patch content si tw th).pix x y = ⟨0, 0, 0, 0⟩ := by
  obtain ⟨lf, rf, tf, bf, sl, sr, st, sb⟩ := si
  have h1 := h ⟨0, 0, lf, tf⟩ (by simp [destRects])
  have h2 := h ⟨lf, 0, if 0 < sr - sl then tw - (lf + rf) else 0, tf⟩
    (by simp [destRects])
  have h3 := h ⟨lf + (tw - (lf + rf)), 0, rf, tf⟩ (by simp [destRects])
  have h4 := h ⟨0, tf, lf, if 0 < sb - st then th - (tf + bf) else 0⟩
    (by simp [destRects])
  have h5 := h ⟨lf, tf, if 0 < sr - sl ∧ 0 < sb - st then tw - (lf + rf) else 0,
    if 0 < sr - sl ∧ 0 < sb - st then th - (tf + bf) else 0⟩
    (by simp [destRects])
  have h6 := h ⟨lf + (tw - (lf + rf)), tf, rf,
    if 0 < sb - st then th - (tf + bf) else 0⟩ (by simp [destRects])
  have h7 := h ⟨0, tf + (th - (tf + bf)), lf, bf⟩ (by simp [destRects])
  have h8 := h ⟨lf, tf + (th - (tf + bf)),
    if 0 < sr - sl then tw - (lf + rf) else 0, bf⟩ (by simp [destRects])
  have h9 := h ⟨lf + (tw - (lf + rf)), tf + (th - (tf + bf)), rf, bf⟩
    (by simp [destRects])
  simp only [covers] at h1 h2 h3 h4 h5 h6 h7 h8 h9
  simp only [scale_nine_patch]
  obtain ⟨R1, hR1⟩ : ∃ R,
      copy_region content (ImageBuffer.new tw th) 0 0 lf tf 0 0 = R := ⟨_, rfl⟩
  have q1 : R1.pix x y = ⟨0, 0, 0, 0⟩ := by
    rw [← hR1, copy_region_pix_out content (ImageBuffer.new tw th)
      0 0 lf tf 0 0 x y (by omega)]
    rfl
  rw [hR1]
  obtain ⟨R2, hR2⟩ : ∃ R, (if 0 < sr - sl then
      copy_image (resize_image (extract_region content sl 0 (sr - sl) tf)
        (tw - (lf + rf)) tf) R1 lf 0 else R1) = R := ⟨_, rfl⟩
  have q2 : R2.pix x y = R1.pix x y := by
    rw [← hR2]
    refine stage_pix_out _ _ _ _ _ _ _ (tw - (lf + rf)) tf
      (resize_image_width _ _ _) (resize_image_height _ _ _) ?_
    intro hc
    have h2c := h2
    simp only [if_pos hc] at h2c
    omega
  rw [hR2]
  obtain ⟨R3, hR3⟩ : ∃ R, copy_region content R2 sr 0 rf tf
      (lf + (tw - (lf + rf))) 0 = R := ⟨_, rfl⟩
  have q3 : R3.pix x y = R2.pix x y := by
    rw [← hR3, copy_region_pix_out content R2 sr 0 rf tf
      (lf + (tw - (lf + rf))) 0 x y (by omega)]
  rw [hR3]
  obtain ⟨R4, hR4⟩ : ∃ R, (if 0 < sb - st then
      copy_image (resize_image (extract_region content 0 st lf (sb - st))
        lf (th - (tf + bf))) R3 0 tf else R3) = R := ⟨_, rfl⟩
  have q4 : R4.pix x y = R3.pix x y := by
    rw [← hR4]
    refine stage_pix_out _ _ _ _ _ _ _ lf (th - (tf + bf))
      (resize_image_width _ _ _) (resize_image_height _ _ _) ?_
    intro hc
    have h4c := h4
    simp only [if_pos hc] at h4c
    omega
  rw [hR4]
  obtain ⟨R5, hR5⟩ : ∃ R, (if 0 < sr - sl ∧ 0 < sb - st then
      copy_image (resize_image (extract_region content sl st (sr - sl) (sb - st))
        (tw - (lf + rf)) (th - (tf + bf))) R4 lf tf else R4) = R := ⟨_, rfl⟩
  have q5 : R5.pix x y = R4.pix x y := by
    rw [← hR5]
    refine stage_pix_out _ _ _ _ _ _ _ (tw - (lf + rf)) (th - (tf + bf))
      (resize_image_width _ _ _) (resize_image_height _ _ _) ?_
    intro hc
    have h5c := h5
    simp only [if_pos hc] at h5c
    omega
  rw [hR5]
  obtain ⟨R6, hR6⟩ : ∃ R, (if 0 < sb - st then
      copy_image (resize_image (extract_region content sr st rf (sb - st))
        rf (th - (tf + bf))) R5 (lf + (tw - (lf + rf))) tf else R5) = R :=
    ⟨_, rfl⟩
  have q6 : R6.pix x y = R5.pix x y := by
    rw [← hR6]
    refine stage_pix_out _ _ _ _ _ _ _ rf (th - (tf + bf))
      (resize_image_width _ _ _) (resize_image_height _ _ _) ?_
    intro hc
    have h6c := h6
    simp only [if_pos hc] at h6c
    omega
  rw [hR6]
  obtain ⟨R7, hR7⟩ : ∃ R, copy_region content R6 0 sb lf bf 0
      (tf + (th - (tf + bf))) = R := ⟨_, rfl⟩
  have q7 : R7.pix x y = R6.pix x y := by
    rw [← hR7, copy_region_pix_out content R6 0 sb lf bf 0
      (tf + (th - (tf + bf))) x y (by omega)]
  rw [hR7]
  obtain ⟨R8, hR8⟩ : ∃ R, (if 0 < sr - sl then
      copy_image (resize_image (extract_region content sl sb (sr - sl) bf)
        (tw - (lf + rf)) bf) R7 lf (tf + (th - (tf + bf))) else R7) = R :=
    ⟨_, rfl⟩
  have q8 : R8.pix x y = R7.pix x y := by
    rw [← hR8]
    refine stage_pix_out _ _ _ _ _ _ _ (tw - (lf + rf)) bf
      (resize_image_width _ _ _) (resize_image_height _ _ _) ?_
    intro hc
    have h8c := h8
    simp only [if_pos hc] at h8c
    omega
  rw [hR8]
  rw [copy_region_pix_out content R8 sr sb rf bf (lf + (tw - (lf + rf)))
    (tf + (th - (tf + bf))) x y (by omega)]
  rw [q8, q7, q6, q5, q4, q3, q2, q1]

theorem scale_nine_patch_unwritten_witness :
    (∀ r ∈ destRects (parse_nine_patch_borders img3) 2 1, ¬ covers r 1 0) ∧
    (scale_nine_patch (extract_content img3) (parse_nine_patch_borders img3)
      2 1).pix 1 0 = ⟨0, 0, 0, 0⟩ := by
  refine ⟨by decide, scale_nine_patch_unwritten (extract_content img3)
    (parse_nine_patch_borders img3) 2 1 1 0 (by decide) (by decide)
    (by decide)⟩

/-! ## Degenerate spans on both axes: pure copy -/

/-- With the degenerate `StretchInfo` produced by a no-marker border (both
axes), scaling to the minimum = content size copies the content verbatim. -/
theorem scale_nine_patch_id (content : Image) (cw ch : Nat)
    (hcw : content.width = cw) (hch : content.height = ch) (x y : Nat)
    (hx : x < cw) (hy : y < ch) :
    (scale_nine_patch content ⟨cw, 0, ch, 0, cw, cw, ch, ch⟩ cw ch).pix x y =
      content.pix x y := by
  simp only [scale_nine_patch, Nat.add_zero, Nat.sub_self, lt_self_iff_false,
    if_false, false_and]
  rw [copy_region_pix, if_neg (by omega)]
  rw [copy_region_pix, if_neg (by omega)]
  rw [copy_region_pix, if_neg (by omega)]
  rw [copy_region_pix, if_pos ⟨by omega, by omega, by omega, by omega,
    by rw [hcw]; omega, by rw [hch]; omega,
    by simp only [ImageBuffer.new]; omega, by simp only [ImageBuffer.new]; omega⟩]
  simp

/-- C8: when an axis has no stretch markers the minimum size on that axis is
the full content extent on that axis, and with no markers on both axes
requesting exactly the minimum size yields the content bitmap unchanged (a
pure unscaled copy). -/
theorem no_marker_axis_min_and_copy (img : Image)
    (hw3 : 3 ≤ img.width) (hh3 : 3 ≤ img.height) :
    (markerIdxs img 0 img.width true = [] →
      (parse_nine_patch_borders img).left_fixed +
        (parse_nine_patch_borders img).right_fixed = img.width - 2) ∧
    (markerIdxs img 0 img.height false = [] →
      (parse_nine_patch_borders img).top_fixed +
        (parse_nine_patch_borders img).bottom_fixed = img.height - 2) ∧
    (markerIdxs img 0 img.width true = [] →
      markerIdxs img 0 img.height false = [] →
      (scale_nine_patch (extract_content img) (parse_nine_patch_borders img)
        (img.width - 2) (img.height - 2)).width = (extract_content img).width ∧
      (scale_nine_patch (extract_content img) (parse_nine_patch_borders img)
        (img.width - 2) (img.height - 2)).height =
        (extract_content img).height ∧
      ∀ x y, x < img.width - 2 → y < img.height - 2 →
        (scale_nine_patch (extract_content img) (parse_nine_patch_borders img)
          (img.width - 2) (img.height - 2)).pix x y =
          (extract_content img).pix x y) := by
  refine ⟨fun hnmx => ?_, fun hnmy => ?_, fun hnmx hnmy => ?_⟩
  · have px := (parse_line_no_markers img 0 img.width true hnmx).1
    simp [parse_nine_patch_borders, px]
  · have py := (parse_line_no_markers img 0 img.height false hnmy).1
    simp [parse_nine_patch_borders, py]
  · have px := (parse_line_no_markers img 0 img.width true hnmx).1
    have py := (parse_line_no_markers img 0 img.height false hnmy).1
    have hsi : parse_nine_patch_borders img =
        ⟨img.width - 2, 0, img.height - 2, 0, img.width - 2, img.width - 2,
          img.height - 2, img.height - 2⟩ := by
      simp only [parse_nine_patch_borders, px, py, Nat.sub_self]
    refine ⟨by rw [scale_nine_patch_width, extract_content_width],
      by rw [scale_nine_patch_height, extract_content_height],
      fun x y hx hy => ?_⟩
    rw [hsi]
    exact scale_nine_patch_id (extract_content img) (img.width - 2)
      (img.height - 2) (extract_content_width img) (extract_content_height img)
      x y hx hy

theorem no_marker_axis_min_and_copy_witness :
    (parse_nine_patch_borders img3).left_fixed +
      (parse_nine_patch_borders img3).right_fixed = 1 ∧
    (parse_nine_patch_borders img3).top_fixed +
      (parse_nine_patch_borders img3).bottom_fixed = 1 ∧
    (scale_nine_patch (extract_content img3) (parse_nine_patch_borders img3)
      1 1).pix 0 0 = (extract_content img3).pix 0 0 := by
  have h := no_marker_axis_min_and_copy img3 (by decide) (by decide)
  exact ⟨h.1 (by decide), h.2.1 (by decide),
    (h.2.2 (by decide) (by decide)).2.2 0 0 (by decide) (by decide)⟩
